import Mathlib

/-!
# Jobster API: job query and statistics controllers

A shallow embedding of `controllers/jobs.js`.  The persistent collection is a
list of `Job` documents (list order is the collection's natural order); every
controller is a function of the request and the collection.  Calls into the
document store (`find`, `sort`, `skip`, `limit`, `countDocuments`, `findOne`,
`findByIdAndUpdate`, `findByIdAndRemove`, `aggregate`) and into the date
library are given by small executable definitions that follow the documented
behaviour of those libraries.
-/

namespace Jobster

/-! ## Data model -/

/-- An ObjectId of the `users` collection. -/
abbrev UserId := Nat

/-- An ObjectId of the `jobs` collection. -/
abbrev JobId := Nat

/-- A stored timestamp, broken down in UTC: calendar `year`, `month` (1..12),
`day` of the month and the milliseconds elapsed within that day. -/
structure Date where
  year : Nat
  month : Nat
  day : Nat
  ms : Nat
deriving DecidableEq, Repr

/-- Chronological order on timestamps (lexicographic on the UTC fields). -/
def Date.le (a b : Date) : Prop :=
  a.year < b.year ∨ (a.year = b.year ∧ (a.month < b.month ∨ (a.month = b.month ∧
    (a.day < b.day ∨ (a.day = b.day ∧ a.ms ≤ b.ms)))))

instance : DecidableRel Date.le := fun a b => by
  unfold Date.le
  infer_instance

/-- A document of the `jobs` collection. -/
structure Job where
  id : JobId
  createdBy : UserId
  company : String
  position : String
  status : String
  jobType : String
  createdAt : Date
deriving DecidableEq, Repr

/-- The collection, in the order in which the store holds it when a query
runs (natural order).  That order is not fixed from one query to the next. -/
abbrev Store := List Job

/-- The query string of `GET /jobs` (`req.query`).  `page` and `limit` hold the
value `Number(...)` gives for the raw parameter when that value is a
non-negative integer, and `none` when the parameter is absent or `Number(...)`
is `NaN`. -/
structure Query where
  search : Option String
  status : Option String
  jobType : Option String
  sort : Option String
  page : Option Nat
  limit : Option Nat
deriving DecidableEq, Repr

/-- The object `queryObject` handed to `Job.find` and `Job.countDocuments`: the
ownership equality and the optional conditions on `position` (a regular
expression with option `i`), `jobType` and `status`. -/
structure QueryObject where
  createdBy : UserId
  position : Option String
  jobType : Option String
  status : Option String
deriving DecidableEq, Repr

/-- The body of the `GET /jobs` response. -/
structure JobsResponse where
  jobs : List Job
  totalJobs : Nat
  numOfPages : Nat
deriving DecidableEq, Repr

/-! ## getAllJobs -/

/-- JavaScript truthiness of an optional string parameter: present and not the
empty string. -/
def truthy (s : Option String) : Bool :=
  match s with
  | none => false
  | some v => v != ""

/-- Lines 11-28 of `getAllJobs`: the ownership equality first, then one key per
filter that is present and, for `jobType` and `status`, different from
`"all"`. -/
def buildQuery (userId : UserId) (q : Query) : QueryObject :=
  let queryObject : QueryObject :=
    { createdBy := userId, position := none, jobType := none, status := none }
  let queryObject :=
    if truthy q.search then { queryObject with position := q.search } else queryObject
  let queryObject :=
    if truthy q.jobType && q.jobType != some "all" then
      { queryObject with jobType := q.jobType } else queryObject
  let queryObject :=
    if truthy q.status && q.status != some "all" then
      { queryObject with status := q.status } else queryObject
  queryObject

/-- A document matches a query object when it satisfies every key present in
it.  `rx pattern subject` is the store's test of a `$regex` condition with
`$options: "i"`. -/
def matchesQuery (rx : String → String → Bool) (o : QueryObject) (j : Job) : Bool :=
  j.createdBy == o.createdBy
    && (match o.position with
        | none => true
        | some p => rx p j.position)
    && (match o.jobType with
        | none => true
        | some t => j.jobType == t)
    && (match o.status with
        | none => true
        | some s => j.status == s)

/-- The store's `find`: the matching documents in natural order. -/
def find (rx : String → String → Bool) (o : QueryObject) (store : Store) : List Job :=
  store.filter (matchesQuery rx o)

/-- The store's `countDocuments`. -/
def countDocuments (rx : String → String → Bool) (o : QueryObject) (store : Store) : Nat :=
  (store.filter (matchesQuery rx o)).length

/-- Ascending order on `createdAt` (`sort("createdAt")`). -/
def byCreatedAt (a b : Job) : Prop := Date.le a.createdAt b.createdAt

/-- Descending order on `createdAt` (`sort("-createdAt")`). -/
def byCreatedAtDesc (a b : Job) : Prop := Date.le b.createdAt a.createdAt

/-- Ascending order on `position` (`sort("position")`), comparing code points. -/
def byPosition (a b : Job) : Prop := a.position ≤ b.position

/-- Descending order on `position` (`sort("-position")`). -/
def byPositionDesc (a b : Job) : Prop := b.position ≤ a.position

instance : DecidableRel byCreatedAt := fun a b => by unfold byCreatedAt; infer_instance
instance : DecidableRel byCreatedAtDesc := fun a b => by unfold byCreatedAtDesc; infer_instance
instance : DecidableRel byPosition := fun a b => by unfold byPosition; infer_instance
instance : DecidableRel byPositionDesc := fun a b => by unfold byPositionDesc; infer_instance

/-- Lines 34-45 of `getAllJobs`: the four recognised sort values; any other
value leaves the natural order.  The sort has a single key and no tie-breaker:
documents with equal keys come out in the natural order of the query at hand,
so every arrangement of the ties is the outcome for some natural order. -/
def applySort (sort : Option String) (result : List Job) : List Job :=
  let result := if sort = some "latest" then result.insertionSort byCreatedAtDesc else result
  let result := if sort = some "oldest" then result.insertionSort byCreatedAt else result
  let result := if sort = some "a-z" then result.insertionSort byPosition else result
  let result := if sort = some "z-a" then result.insertionSort byPositionDesc else result
  result

/-- The expression `Number(x) || d`: `d` when `Number(x)` is `NaN` or `0`. -/
def numberOr (x : Option Nat) (d : Nat) : Nat :=
  match x with
  | none => d
  | some n => if n = 0 then d else n

/-- `Math.ceil(a / b)` on non-negative integers, `b` positive. -/
def ceilDiv (a b : Nat) : Nat := (a + b - 1) / b

/-- The controller `getAllJobs`, as a function of the store's regular-expression
test, the authenticated user, the query string and the collection. -/
def getAllJobs (rx : String → String → Bool) (userId : UserId) (q : Query)
    (store : Store) : JobsResponse :=
  let queryObject := buildQuery userId q
  let result := find rx queryObject store
  let result := applySort q.sort result
  let page := numberOr q.page 1
  let limit := numberOr q.limit 10
  let skip := (page - 1) * limit
  let jobs := (result.drop skip).take limit
  let totalJobs := countDocuments rx queryObject store
  let numOfPages := ceilDiv totalJobs limit
  { jobs := jobs, totalJobs := totalJobs, numOfPages := numOfPages }

/-- The `jobs` of the response for page number `page` with page size `limit`,
all other parameters as in `q`. -/
def pageJobs (rx : String → String → Bool) (userId : UserId) (q : Query) (store : Store)
    (limit page : Nat) : List Job :=
  (getAllJobs rx userId { q with page := some page, limit := some limit } store).jobs

/-- The pages `1, 2, ..., numOfPages` of a listing with page size `limit`,
concatenated in that order.  Every page is fetched by a query of its own:
`view p` is the natural order of the collection when page `p` is fetched, and
`numOfPages` is read from the response for page 1. -/
def allPages (rx : String → String → Bool) (userId : UserId) (q : Query)
    (view : Nat → Store) (limit : Nat) : List Job :=
  ((List.range
      (getAllJobs rx userId { q with page := some 1, limit := some limit } (view 1)).numOfPages).map
    (fun i => pageJobs rx userId q (view (i + 1)) limit (i + 1))).flatten

/-! ## getJob, updateJob, deleteJob -/

/-- The errors the controllers raise, and the validation failure the store
raises for an update run with `runValidators: true`. -/
inductive ApiError where
  | badRequest (msg : String)
  | notFound (msg : String)
  | validation
deriving DecidableEq, Repr

/-- The body of `PATCH /jobs/:id`: each field is absent or a string. -/
structure JobPatch where
  company : Option String
  position : Option String
  status : Option String
  jobType : Option String
deriving DecidableEq, Repr

/-- The object literal `{ _id: jobId, createdBy: userId }`. -/
structure IdFilter where
  _id : JobId
  createdBy : UserId
deriving DecidableEq, Repr

/-- The message of `NotFoundError`. -/
def noJobWithId (jobId : JobId) : String := "No job with id " ++ toString jobId

/-- The store's `findOne(conditions)`: the first document satisfying every key
of the conditions. -/
def findOne (conditions : IdFilter) (store : Store) : Option Job :=
  store.find? (fun j => j.id == conditions._id && j.createdBy == conditions.createdBy)

/-- The controller `getJob`. -/
def getJob (userId : UserId) (jobId : JobId) (store : Store) : Except ApiError Job :=
  match findOne { _id := jobId, createdBy := userId } store with
  | none => .error (.notFound (noJobWithId jobId))
  | some job => .ok job

/-- The ObjectId cast the store applies to the value given for `_id`.  Given a
plain object without query operators, the cast takes that object's own `_id`
property (this is what lets a document stand in for its id) and reads nothing
else, so the `createdBy` entry of the object is dropped. -/
def castObjectId (value : IdFilter) : JobId := value._id

/-- The patch applied to a document: the fields present replace the stored
ones. -/
def applyPatch (update : JobPatch) (j : Job) : Job :=
  { j with
    company := update.company.getD j.company
    position := update.position.getD j.position
    status := update.status.getD j.status
    jobType := update.jobType.getD j.jobType }

/-- Replace the first document whose `_id` is `id` by its patched version;
returns the patched document when there is one. -/
def updateById (id : JobId) (update : JobPatch) : Store → Option Job × Store
  | [] => (none, [])
  | j :: rest =>
    if j.id == id then (some (applyPatch update j), applyPatch update j :: rest)
    else
      let r := updateById id update rest
      (r.1, j :: r.2)

/-- Remove the first document whose `_id` is `id`; returns the removed document
when there is one. -/
def removeById (id : JobId) : Store → Option Job × Store
  | [] => (none, [])
  | j :: rest =>
    if j.id == id then (some j, rest)
    else
      let r := removeById id rest
      (r.1, j :: r.2)

/-- The store's `findByIdAndUpdate(id, update, { new: true, runValidators: true })`,
which the library defines as `findOneAndUpdate({ _id: id }, update, ...)`: the
only condition is on `_id`, with the value given for it cast to an ObjectId.
`validate` stands for the schema's update validators (the schema is declared in
`models/Job`); when they reject the update nothing is written. -/
def findByIdAndUpdate (validate : JobPatch → Bool) (id : IdFilter) (update : JobPatch)
    (store : Store) : Except ApiError (Option Job) × Store :=
  if validate update then
    let r := updateById (castObjectId id) update store
    (.ok r.1, r.2)
  else (.error .validation, store)

/-- The store's `findByIdAndRemove(id)`, which the library defines as
`findOneAndRemove({ _id: id })`. -/
def findByIdAndRemove (id : IdFilter) (store : Store) : Option Job × Store :=
  removeById (castObjectId id) store

/-- The controller `updateJob`: the response (the updated job or the error
raised) and the collection afterwards. -/
def updateJob (validate : JobPatch → Bool) (userId : UserId) (jobId : JobId)
    (body : JobPatch) (store : Store) : Except ApiError Job × Store :=
  if body.company = some "" ∨ body.position = some "" then
    (.error (.badRequest "Company or Position fields cannot be empty"), store)
  else
    match findByIdAndUpdate validate { _id := jobId, createdBy := userId } body store with
    | (.error e, store') => (.error e, store')
    | (.ok none, store') => (.error (.notFound (noJobWithId jobId)), store')
    | (.ok (some job), store') => (.ok job, store')

/-- The controller `deleteJob`: the response (empty, or the error raised) and
the collection afterwards. -/
def deleteJob (userId : UserId) (jobId : JobId) (store : Store) :
    Except ApiError Unit × Store :=
  match findByIdAndRemove { _id := jobId, createdBy := userId } store with
  | (none, store') => (.error (.notFound (noJobWithId jobId)), store')
  | (some _, store') => (.ok (), store')

/-! ## The date library: `moment().month(m).year(y).format("MMM Y")` -/

/-- The calendar fields of a moment (local time): `year`, zero-indexed `month`
(0..11) and `date`, the day of the month.  The time of day plays no part in the
label and is left out. -/
structure Moment where
  year : Nat
  month : Nat
  date : Nat
deriving DecidableEq, Repr

/-- The library's `isLeapYear`. -/
def isLeapYear (year : Nat) : Bool :=
  (year % 4 == 0 && year % 100 != 0) || year % 400 == 0

/-- The library's `daysInMonth(year, month)`, `month` zero-indexed. -/
def daysInMonth (year month : Nat) : Nat :=
  let modMonth := month % 12
  let year := year + (month - modMonth) / 12
  if modMonth = 1 then (if isLeapYear year then 29 else 28)
  else 31 - ((modMonth % 7) % 2)

/-- The calendar fields a native `Date` takes when set to `(year, month, day)`:
a `day` past the end of the month rolls over into the following month (a day of
the month is at most 31, so it rolls over at most once). -/
def makeDay (year month day : Nat) : Moment :=
  let year := year + month / 12
  let month := month % 12
  if day ≤ daysInMonth year month then { year := year, month := month, date := day }
  else
    { year := year + (month + 1) / 12, month := (month + 1) % 12,
      date := day - daysInMonth year month }

/-- The setter `.month(value)`: the day of the month is clamped to the length of
the target month, then the native `setMonth(value, dayOfMonth)` is applied. -/
def Moment.setMonth (mom : Moment) (value : Nat) : Moment :=
  let dayOfMonth := min mom.date (daysInMonth mom.year value)
  makeDay mom.year value dayOfMonth

/-- The setter `.year(value)`: on 29 February of a leap year the native
`setFullYear(value, month, daysInMonth(value, month))` is applied, otherwise
`setFullYear(value)`. -/
def Moment.setYear (mom : Moment) (value : Nat) : Moment :=
  if isLeapYear mom.year && mom.month == 1 && mom.date == 29 then
    makeDay value mom.month (daysInMonth value mom.month)
  else makeDay value mom.month mom.date

/-- The locale's abbreviated month names, indexed by the zero-indexed month. -/
def monthsShort : List String :=
  ["Jan", "Feb", "Mar", "Apr", "May", "Jun", "Jul", "Aug", "Sep", "Oct", "Nov", "Dec"]

/-- The library's `zeroFill(number, targetLength)` for a non-negative number. -/
def zeroFill (number targetLength : Nat) : String :=
  let absNumber := toString number
  let zerosToFill := targetLength - absNumber.length
  String.mk (List.replicate zerosToFill '0') ++ absNumber

/-- The format token `Y`: the year zero-filled to four digits up to 9999, and
with a leading `+` beyond. -/
def formatY (y : Nat) : String :=
  if y ≤ 9999 then zeroFill y 4 else "+" ++ toString y

/-- The formatter `.format("MMM Y")`. -/
def Moment.formatMMMY (mom : Moment) : String :=
  monthsShort.getD mom.month "" ++ " " ++ formatY mom.year

/-- Lines 171-174 of `showStats`: the label of the group `(year, month)` when the
current date is `now`. -/
def dateLabel (now : Moment) (year month : Nat) : String :=
  ((now.setMonth (month - 1)).setYear year).formatMMMY

/-- The abbreviated English name of calendar month `month` (1 = January, ...,
12 = December). -/
def calendarAbbrev (month : Nat) : String :=
  match month with
  | 1 => "Jan"
  | 2 => "Feb"
  | 3 => "Mar"
  | 4 => "Apr"
  | 5 => "May"
  | 6 => "Jun"
  | 7 => "Jul"
  | 8 => "Aug"
  | 9 => "Sep"
  | 10 => "Oct"
  | 11 => "Nov"
  | 12 => "Dec"
  | _ => ""

/-! ## showStats -/

/-- The `$match` stage `{ createdBy: userId }`. -/
def ownedBy (userId : UserId) (store : Store) : List Job :=
  store.filter (fun j => j.createdBy == userId)

/-- The `$group` stage with `count: { $sum: 1 }` over the grouping keys of the
input documents: one group per distinct key, holding the number of input
documents with that key. -/
def groupCount {κ : Type} [DecidableEq κ] (keys : List κ) : List (κ × Nat) :=
  keys.dedup.map (fun k => (k, keys.count k))

/-- The plain object built by `reduce`: the property assignments
`acc[title] = count`, most recent first. -/
def reduceStats (stats : List (String × Nat)) : List (String × Nat) :=
  stats.foldl (fun acc curr => (curr.1, curr.2) :: acc) []

/-- The expression `stats.key || 0`. -/
def propOrZero (stats : List (String × Nat)) (key : String) : Nat :=
  (stats.lookup key).getD 0

/-- The object `defaultStats`. -/
structure DefaultStats where
  pending : Nat
  interview : Nat
  declined : Nat
deriving DecidableEq, Repr

/-- Lines 126-145 of `showStats`. -/
def defaultStats (userId : UserId) (store : Store) : DefaultStats :=
  let stats := groupCount ((ownedBy userId store).map (fun j => j.status))
  let stats := reduceStats stats
  { pending := propOrZero stats "pending"
    interview := propOrZero stats "interview"
    declined := propOrZero stats "declined" }

/-- The grouping key `{ year: { $year: "$createdAt" }, month: { $month: "$createdAt" } }`. -/
structure MonthKey where
  year : Nat
  month : Nat
deriving DecidableEq, Repr

/-- The grouping key of a job. -/
def monthOf (j : Job) : MonthKey := { year := j.createdAt.year, month := j.createdAt.month }

/-- Chronological order on months: strictly earlier. -/
def MonthKey.before (a b : MonthKey) : Prop :=
  a.year < b.year ∨ (a.year = b.year ∧ a.month < b.month)

instance : DecidableRel MonthKey.before := fun a b => by
  unfold MonthKey.before
  infer_instance

/-- The `$sort` stage `{ "_id.year": -1, "_id.month": -1 }`: `a` may precede `b`. -/
def recentFirst (a b : MonthKey × Nat) : Prop :=
  b.1.year < a.1.year ∨ (b.1.year = a.1.year ∧ b.1.month ≤ a.1.month)

instance : DecidableRel recentFirst := fun a b => by
  unfold recentFirst
  infer_instance

/-- Lines 147-160 of `showStats`: match, group by month, sort most recent first,
keep six. -/
def monthlyGroups (userId : UserId) (store : Store) : List (MonthKey × Nat) :=
  let grouped := groupCount ((ownedBy userId store).map monthOf)
  let sorted := grouped.insertionSort recentFirst
  sorted.take 6

/-- An element of `monthlyApplications`. -/
structure MonthlyApplication where
  date : String
  count : Nat
deriving DecidableEq, Repr

/-- Lines 163-179 of `showStats`: label every group, then reverse. -/
def monthlyApplications (now : Moment) (userId : UserId) (store : Store) :
    List MonthlyApplication :=
  ((monthlyGroups userId store).map
    (fun item => { date := dateLabel now item.1.year item.1.month, count := item.2 })).reverse

/-- The body of the `GET /jobs/stats` response. -/
structure StatsResponse where
  defaultStats : DefaultStats
  monthlyApplications : List MonthlyApplication
deriving DecidableEq, Repr

/-- The controller `showStats`; `now` is the date at which it runs. -/
def showStats (now : Moment) (userId : UserId) (store : Store) : StatsResponse :=
  { defaultStats := defaultStats userId store
    monthlyApplications := monthlyApplications now userId store }

/-! ## Regular expressions: a fragment of the store's `$regex` with option `i`

The store evaluates `{ $regex: pattern, $options: "i" }` with its own engine.
Only a fragment of that engine is described here: literal characters, the dot,
and the quantifiers `*`, `+` and `?` applied to a single character or dot.
For a pattern of the fragment `regexFragment` gives the engine's answer; for
every other pattern (anchors, groups, classes, alternation, escapes, braces,
stacked quantifiers, malformed patterns) it gives `none` and nothing is said.
The engine's case folding is the parameter `fold`: two characters are the same
letter up to case exactly when `fold` sends them to the same character. -/

/-- One character position of a pattern: a literal character or the dot. -/
inductive Atom where
  | lit (c : Char)
  | any
deriving DecidableEq, Repr

/-- How often a position may repeat: exactly once, `*`, `+` or `?`. -/
inductive Quant where
  | one
  | star
  | plus
  | opt
deriving DecidableEq, Repr

/-- An atom with its quantifier. -/
structure Piece where
  atom : Atom
  quant : Quant
deriving DecidableEq, Repr

/-- The characters with a special meaning in a pattern: backslash, `^`, `$`,
`.`, `[`, `|`, `(`, `)`, `?`, `*`, `+` and the opening brace.  A closing bracket
or brace that closes nothing is an ordinary character. -/
def isMeta (c : Char) : Bool :=
  c == Char.ofNat 92 || c == '^' || c == '$' || c == '.' || c == '[' || c == '|'
    || c == '(' || c == ')' || c == '?' || c == '*' || c == '+' || c == Char.ofNat 123

/-- The atom a pattern character stands for, when it can start a position. -/
def parseAtom (c : Char) : Option Atom :=
  if c = '.' then some Atom.any
  else if isMeta c then none
  else some (Atom.lit c)

/-- The quantifier a pattern character stands for, if any. -/
def quantOf (c : Char) : Option Quant :=
  if c = '*' then some Quant.star
  else if c = '+' then some Quant.plus
  else if c = '?' then some Quant.opt
  else none

/-- The pieces of a pattern of the fragment; `none` outside the fragment. -/
def parsePieces : List Char → Option (List Piece)
  | [] => some []
  | [c] => (parseAtom c).map (fun a => [{ atom := a, quant := Quant.one }])
  | c :: d :: rest =>
    match parseAtom c with
    | none => none
    | some a =>
      match quantOf d with
      | some qt => (parsePieces rest).map (fun ps => { atom := a, quant := qt } :: ps)
      | none =>
        (parsePieces (d :: rest)).map (fun ps => { atom := a, quant := Quant.one } :: ps)

/-- Whether an atom accepts a subject character: a literal accepts the same
letter in either case, the dot accepts everything but a line feed. -/
def atomMatches (fold : Char → Char) (a : Atom) (c : Char) : Bool :=
  match a with
  | Atom.lit x => fold x == fold c
  | Atom.any => c != Char.ofNat 10

/-- Consume any number of characters accepted by `a`, then continue with `k`. -/
def starLoop (fold : Char → Char) (a : Atom) (k : List Char → Bool) : List Char → Bool
  | [] => k []
  | c :: s => k (c :: s) || (atomMatches fold a c && starLoop fold a k s)

/-- Whether the pieces match a prefix of the subject. -/
def matchHere (fold : Char → Char) : List Piece → List Char → Bool
  | [] => fun _ => true
  | p :: ps => fun s =>
    match p.quant with
    | Quant.one =>
      match s with
      | [] => false
      | c :: s2 => atomMatches fold p.atom c && matchHere fold ps s2
    | Quant.opt =>
      matchHere fold ps s ||
        (match s with
          | [] => false
          | c :: s2 => atomMatches fold p.atom c && matchHere fold ps s2)
    | Quant.star => starLoop fold p.atom (matchHere fold ps) s
    | Quant.plus =>
      match s with
      | [] => false
      | c :: s2 => atomMatches fold p.atom c && starLoop fold p.atom (matchHere fold ps) s2

/-- Whether the pieces match somewhere in the subject (the pattern is not
anchored). -/
def searchFrom (fold : Char → Char) (ps : List Piece) : List Char → Bool
  | [] => matchHere fold ps []
  | c :: s => matchHere fold ps (c :: s) || searchFrom fold ps s

/-- The answer of `{ $regex: pattern, $options: "i" }` against a string field
for a pattern of the fragment; `none` for any other pattern. -/
def regexFragment (fold : Char → Char) (pattern subject : String) : Option Bool :=
  (parsePieces pattern.data).map (fun ps => searchFrom fold ps subject.data)

/-- The store's test `rx` answers as the fragment prescribes wherever the
fragment prescribes an answer. -/
def Agrees (fold : Char → Char) (rx : String → String → Bool) : Prop :=
  ∀ pattern subject b, regexFragment fold pattern subject = some b → rx pattern subject = b

/-- Case-insensitive literal containment: the characters of `needle`, folded,
occur consecutively in `hay`, folded. -/
def containsCI (fold : Char → Char) (needle hay : String) : Prop :=
  (needle.data.map fold) <:+: (hay.data.map fold)

instance (fold : Char → Char) (needle hay : String) : Decidable (containsCI fold needle hay) := by
  unfold containsCI
  infer_instance

/-! ## Sample data -/

/-- A job of user 1. -/
def sampleJob : Job :=
  { id := 7, createdBy := 1, company := "Acme", position := "Engineer", status := "pending",
    jobType := "full-time", createdAt := { year := 2024, month := 1, day := 15, ms := 0 } }

/-- A second job of user 1, created a month later. -/
def sampleJob2 : Job :=
  { id := 8, createdBy := 1, company := "Bolt", position := "Analyst", status := "interview",
    jobType := "remote", createdAt := { year := 2024, month := 2, day := 3, ms := 0 } }

/-- A job of user 1 with the same `createdAt` as `sampleJob`. -/
def sampleTwin : Job := { sampleJob with id := 9 }

/-- Two natural orders of the collection of `sampleJob` and `sampleTwin`: one
when page 1 is fetched, the other afterwards. -/
def tieView (p : Nat) : Store :=
  if p = 1 then [sampleJob, sampleTwin] else [sampleTwin, sampleJob]

/-- Two natural orders of the collection of `sampleJob` and `sampleJob2`: one
when page 1 is fetched, the other afterwards. -/
def swapView (p : Nat) : Store :=
  if p = 1 then [sampleJob, sampleJob2] else [sampleJob2, sampleJob]

/-- A job of user 1 created on the first day of the given month. -/
def jobIn (id : JobId) (year month : Nat) : Job :=
  { id := id, createdBy := 1, company := "Acme", position := "Engineer", status := "pending",
    jobType := "full-time", createdAt := { year := year, month := month, day := 1, ms := 0 } }

/-- Nine jobs of user 1 spread over seven months, and one job of user 2. -/
def sampleYear : Store :=
  [jobIn 1 2024 8, jobIn 2 2024 1, jobIn 3 2024 3, jobIn 4 2023 12, jobIn 5 2024 3,
   jobIn 6 2024 10, jobIn 7 2024 7, jobIn 8 2024 8, jobIn 9 2024 9,
   { jobIn 10 2024 11 with createdBy := 2 }]

/-- A query string that only sets `sort`. -/
def sortQuery (sort : String) : Query :=
  { search := none, status := none, jobType := none, sort := some sort,
    page := none, limit := none }

/-- A query string that only sets `search`. -/
def searchQuery (search : String) : Query :=
  { search := some search, status := none, jobType := none, sort := none,
    page := none, limit := none }

/-- A store engine for the examples: it answers as the fragment prescribes, and
`false` for the patterns the fragment leaves open (any other answer there would
do as well). -/
def sampleEngine (fold : Char → Char) (pattern subject : String) : Bool :=
  (regexFragment fold pattern subject).getD false

/-- A patch that renames the company and leaves everything else. -/
def samplePatch : JobPatch :=
  { company := some "Other", position := none, status := none, jobType := none }

/-! ## Ownership of the records returned by getAllJobs -/

theorem buildQuery_createdBy (userId : UserId) (q : Query) :
    (buildQuery userId q).createdBy = userId := by
  unfold buildQuery
  simp only []
  split_ifs <;> rfl

theorem matchesQuery_createdBy {rx : String → String → Bool} {o : QueryObject} {j : Job}
    (h : matchesQuery rx o j = true) : j.createdBy = o.createdBy := by
  unfold matchesQuery at h
  simp only [Bool.and_eq_true, beq_iff_eq] at h
  exact h.1.1.1

theorem ite_insertionSort_perm (c : Prop) [Decidable c] (r : Job → Job → Prop)
    [DecidableRel r] (l : List Job) :
    (if c then l.insertionSort r else l).Perm l := by
  split_ifs
  · exact List.perm_insertionSort _ _
  · exact List.Perm.refl _

theorem applySort_perm (sort : Option String) (l : List Job) :
    (applySort sort l).Perm l := by
  unfold applySort
  exact ((ite_insertionSort_perm _ _ _).trans (ite_insertionSort_perm _ _ _)).trans
    ((ite_insertionSort_perm _ _ _).trans (ite_insertionSort_perm _ _ _))

theorem applySort_latest (l : List Job) :
    applySort (some "latest") l = l.insertionSort byCreatedAtDesc := by
  simp [applySort]

theorem applySort_oldest (l : List Job) :
    applySort (some "oldest") l = l.insertionSort byCreatedAt := by
  simp [applySort]

theorem applySort_az (l : List Job) :
    applySort (some "a-z") l = l.insertionSort byPosition := by
  simp [applySort]

theorem applySort_za (l : List Job) :
    applySort (some "z-a") l = l.insertionSort byPositionDesc := by
  simp [applySort]

theorem find_owner {rx : String → String → Bool} {o : QueryObject} {store : Store} {j : Job}
    (h : j ∈ find rx o store) : j.createdBy = o.createdBy := by
  unfold find at h
  exact matchesQuery_createdBy (List.mem_filter.mp h).2

/-- C1. Every job in the response of `getAllJobs` was created by the requesting
user, for every store, query string and regular-expression semantics; the
query object always carries the ownership equality. -/
theorem getAllJobs_jobs_owned (rx : String → String → Bool) (userId : UserId) (q : Query)
    (store : Store) :
    (buildQuery userId q).createdBy = userId ∧
      ∀ j ∈ (getAllJobs rx userId q store).jobs, j.createdBy = userId := by
  refine ⟨buildQuery_createdBy userId q, ?_⟩
  intro j hj
  have h1 : j ∈ applySort q.sort (find rx (buildQuery userId q) store) :=
    List.mem_of_mem_drop (List.mem_of_mem_take hj)
  have h2 : j ∈ find rx (buildQuery userId q) store := (applySort_perm _ _).subset h1
  rw [find_owner h2, buildQuery_createdBy]

/-! ## Equal responses for the sentinel and the absent filter -/

theorem buildQuery_status_all (userId : UserId) (q : Query) :
    buildQuery userId { q with status := some "all" } =
      buildQuery userId { q with status := none } := by
  simp [buildQuery, truthy]

theorem buildQuery_jobType_all (userId : UserId) (q : Query) :
    buildQuery userId { q with jobType := some "all" } =
      buildQuery userId { q with jobType := none } := by
  simp [buildQuery, truthy]

/-- C10. With `status` equal to `"all"` or omitted the query object carries no
status condition and is the query object of the request with its status
condition removed, so the candidate set and the whole response (jobs,
totalJobs, numOfPages) are the same; likewise for `jobType`. -/
theorem getAllJobs_all_is_no_filter (rx : String → String → Bool) (userId : UserId)
    (q : Query) (store : Store) :
    (buildQuery userId { q with status := some "all" } =
        { buildQuery userId q with status := none }
      ∧ buildQuery userId { q with status := none } =
        { buildQuery userId q with status := none }
      ∧ getAllJobs rx userId { q with status := some "all" } store =
        getAllJobs rx userId { q with status := none } store)
    ∧ (buildQuery userId { q with jobType := some "all" } =
        { buildQuery userId q with jobType := none }
      ∧ buildQuery userId { q with jobType := none } =
        { buildQuery userId q with jobType := none }
      ∧ getAllJobs rx userId { q with jobType := some "all" } store =
        getAllJobs rx userId { q with jobType := none } store) := by
  refine ⟨⟨?_, ?_, ?_⟩, ?_, ?_, ?_⟩
  · rw [buildQuery_status_all]
    unfold buildQuery
    simp only [truthy]
    split_ifs <;> rfl
  · unfold buildQuery
    simp only [truthy]
    split_ifs <;> rfl
  · unfold getAllJobs
    simp only [buildQuery_status_all]
  · rw [buildQuery_jobType_all]
    unfold buildQuery
    simp only [truthy]
    split_ifs <;> rfl
  · unfold buildQuery
    simp only [truthy]
    split_ifs <;> rfl
  · unfold getAllJobs
    simp only [buildQuery_jobType_all]

/-! ## Totals and page count -/

theorem ceilDiv_eq_ceil (a b : Nat) (hb : 0 < b) :
    ceilDiv a b = ⌈(a : ℚ) / (b : ℚ)⌉₊ := by
  have hbq : (0 : ℚ) < (b : ℚ) := by exact_mod_cast hb
  unfold ceilDiv
  apply le_antisymm
  · have h1 : (a : ℚ) / (b : ℚ) ≤ (⌈(a : ℚ) / (b : ℚ)⌉₊ : ℚ) := Nat.le_ceil _
    rw [div_le_iff₀ hbq] at h1
    have h2 : a ≤ ⌈(a : ℚ) / (b : ℚ)⌉₊ * b := by exact_mod_cast h1
    have h3 : (a + b - 1) / b < ⌈(a : ℚ) / (b : ℚ)⌉₊ + 1 := by
      rw [Nat.div_lt_iff_lt_mul hb]
      have : (⌈(a : ℚ) / (b : ℚ)⌉₊ + 1) * b = ⌈(a : ℚ) / (b : ℚ)⌉₊ * b + b := by ring
      omega
    omega
  · rw [Nat.ceil_le, div_le_iff₀ hbq]
    have h1 := Nat.div_add_mod (a + b - 1) b
    have h2 := Nat.mod_lt (a + b - 1) hb
    rw [Nat.mul_comm] at h1
    have h3 : a ≤ (a + b - 1) / b * b := by
      generalize (a + b - 1) / b * b = m at h1
      omega
    exact_mod_cast h3

theorem matchesQuery_buildQuery_iff (rx : String → String → Bool) (userId : UserId)
    (q : Query) (j : Job) :
    matchesQuery rx (buildQuery userId q) j = true ↔
      (j.createdBy = userId
        ∧ (∀ s, q.search = some s → s ≠ "" → rx s j.position = true)
        ∧ (∀ t, q.jobType = some t → t ≠ "" → t ≠ "all" → j.jobType = t)
        ∧ (∀ s, q.status = some s → s ≠ "" → s ≠ "all" → j.status = s)) := by
  obtain ⟨search, status, jobType, sort, page, limit⟩ := q
  rcases search with _ | s <;> rcases status with _ | st <;> rcases jobType with _ | t <;>
    simp only [buildQuery, matchesQuery, truthy] <;>
    split_ifs <;> simp_all [and_assoc]

theorem numberOr_pos (x : Option Nat) (d : Nat) (hd : 0 < d) : 0 < numberOr x d := by
  unfold numberOr
  split
  · exact hd
  · split_ifs <;> omega

theorem numberOr_some_pos (n d : Nat) (hn : 0 < n) : numberOr (some n) d = n := by
  unfold numberOr
  simp only []
  split_ifs <;> omega

theorem ceilDiv_zero (b : Nat) (hb : 0 < b) : ceilDiv 0 b = 0 := by
  unfold ceilDiv
  rw [Nat.div_eq_zero_iff hb]
  omega

/-- C4. `totalJobs` is the number of stored records satisfying the query object,
that is the owner's records passing the search, jobType and status filters; it
is the same for every `page` and `limit`; `numOfPages` is the ceiling of
`totalJobs / limit` for a supplied positive `limit` and of `totalJobs / 10`
when `limit` is absent or not a number; and it is `0` when `totalJobs` is. -/
theorem getAllJobs_totalJobs_numOfPages (rx : String → String → Bool) (userId : UserId)
    (q : Query) (store : Store) :
    (getAllJobs rx userId q store).totalJobs =
        store.countP (matchesQuery rx (buildQuery userId q))
    ∧ (∀ j, matchesQuery rx (buildQuery userId q) j = true ↔
        (j.createdBy = userId
          ∧ (∀ s, q.search = some s → s ≠ "" → rx s j.position = true)
          ∧ (∀ t, q.jobType = some t → t ≠ "" → t ≠ "all" → j.jobType = t)
          ∧ (∀ s, q.status = some s → s ≠ "" → s ≠ "all" → j.status = s)))
    ∧ (∀ page limit, (getAllJobs rx userId { q with page := page, limit := limit } store).totalJobs
        = (getAllJobs rx userId q store).totalJobs)
    ∧ (∀ n, 0 < n → q.limit = some n → (getAllJobs rx userId q store).numOfPages
        = ⌈((getAllJobs rx userId q store).totalJobs : ℚ) / (n : ℚ)⌉₊)
    ∧ (q.limit = none → (getAllJobs rx userId q store).numOfPages
        = ⌈((getAllJobs rx userId q store).totalJobs : ℚ) / (10 : ℚ)⌉₊)
    ∧ ((getAllJobs rx userId q store).totalJobs = 0 →
        (getAllJobs rx userId q store).numOfPages = 0) := by
  refine ⟨?_, matchesQuery_buildQuery_iff rx userId q, ?_, ?_, ?_, ?_⟩
  · simp only [getAllJobs, countDocuments, List.countP_eq_length_filter]
  · intro page limit
    rfl
  · intro n hn hq
    simp only [getAllJobs, hq, numberOr_some_pos n 10 hn]
    exact ceilDiv_eq_ceil _ n hn
  · intro hq
    simp only [getAllJobs, hq, numberOr]
    exact_mod_cast ceilDiv_eq_ceil _ 10 (by norm_num)
  · intro h0
    simp only [getAllJobs] at h0 ⊢
    rw [h0]
    exact ceilDiv_zero _ (numberOr_pos _ _ (by norm_num))

/-! ## Pagination -/

theorem join_pages_eq_take {α : Type} (L : List α) (l k : Nat) :
    ((List.range k).map (fun i => (L.drop (i * l)).take l)).flatten = L.take (k * l) := by
  induction k with
  | zero => simp
  | succ k ih =>
    rw [List.range_succ, List.map_append, List.flatten_append, ih]
    simp only [List.map_cons, List.map_nil, List.flatten_cons, List.flatten_nil, List.append_nil]
    rw [Nat.succ_mul, List.take_add]

theorem le_ceilDiv_mul (a b : Nat) (hb : 0 < b) : a ≤ ceilDiv a b * b := by
  unfold ceilDiv
  have h1 := Nat.div_add_mod (a + b - 1) b
  have h2 := Nat.mod_lt (a + b - 1) hb
  rw [Nat.mul_comm] at h1
  generalize (a + b - 1) / b * b = m at h1
  omega

theorem Date.le_total (a b : Date) : Date.le a b ∨ Date.le b a := by
  unfold Date.le
  omega

theorem Date.le_trans {a b c : Date} (h1 : Date.le a b) (h2 : Date.le b c) : Date.le a c := by
  unfold Date.le at *
  omega

theorem sorted_insertionSort_of {α : Type} (r : α → α → Prop) [DecidableRel r]
    (htotal : ∀ a b, r a b ∨ r b a) (htrans : ∀ a b c, r a b → r b c → r a c)
    (l : List α) : (l.insertionSort r).Sorted r := by
  haveI : IsTotal α r := ⟨htotal⟩
  haveI : IsTrans α r := ⟨htrans⟩
  exact List.sorted_insertionSort r l

theorem sorted_byCreatedAt (l : List Job) : (l.insertionSort byCreatedAt).Sorted byCreatedAt :=
  sorted_insertionSort_of byCreatedAt (fun a b => Date.le_total a.createdAt b.createdAt)
    (fun _ _ _ h1 h2 => Date.le_trans h1 h2) l

theorem sorted_byCreatedAtDesc (l : List Job) :
    (l.insertionSort byCreatedAtDesc).Sorted byCreatedAtDesc :=
  sorted_insertionSort_of byCreatedAtDesc (fun a b => Date.le_total b.createdAt a.createdAt)
    (fun _ _ _ h1 h2 => Date.le_trans h2 h1) l

theorem sorted_byPosition (l : List Job) : (l.insertionSort byPosition).Sorted byPosition :=
  sorted_insertionSort_of byPosition (fun a b => le_total a.position b.position)
    (fun a b c (h1 : a.position ≤ b.position) (h2 : b.position ≤ c.position) =>
      le_trans h1 h2) l

theorem sorted_byPositionDesc (l : List Job) :
    (l.insertionSort byPositionDesc).Sorted byPositionDesc :=
  sorted_insertionSort_of byPositionDesc (fun a b => le_total b.position a.position)
    (fun a b c (h1 : b.position ≤ a.position) (h2 : c.position ≤ b.position) =>
      le_trans h2 h1) l

theorem Date.le_antisymm {a b : Date} (h1 : Date.le a b) (h2 : Date.le b a) : a = b := by
  unfold Date.le at *
  cases a
  cases b
  simp only [Date.mk.injEq] at *
  omega

theorem sorted_perm_unique {α : Type} {r : α → α → Prop} :
    ∀ (l₁ l₂ : List α), l₁.Perm l₂ → l₁.Pairwise r → l₂.Pairwise r →
      (∀ a ∈ l₁, ∀ b ∈ l₁, r a b → r b a → a = b) → l₁ = l₂
  | [], l₂, hp, _, _, _ => hp.nil_eq
  | a :: t₁, [], hp, _, _, _ => by simpa using hp.length_eq
  | a :: t₁, b :: t₂, hp, h1, h2, hanti => by
    have hab : a = b := by
      have ha : a ∈ b :: t₂ := hp.subset (List.mem_cons_self _ _)
      have hb : b ∈ a :: t₁ := hp.symm.subset (List.mem_cons_self _ _)
      rcases List.mem_cons.mp ha with h | h
      · exact h
      · rcases List.mem_cons.mp hb with h3 | h3
        · exact h3.symm
        · exact hanti a (List.mem_cons_self _ _) b hb
            ((List.pairwise_cons.mp h1).1 b h3) ((List.pairwise_cons.mp h2).1 a h)
    subst hab
    have ht := sorted_perm_unique t₁ t₂ hp.cons_inv (List.pairwise_cons.mp h1).2
      (List.pairwise_cons.mp h2).2
      (fun x hx y hy => hanti x (List.mem_cons_of_mem _ hx) y (List.mem_cons_of_mem _ hy))
    rw [ht]

theorem pageJobs_eq (rx : String → String → Bool) (userId : UserId) (q : Query)
    (store : Store) (limit : Nat) (hlimit : 0 < limit) (i : Nat) :
    pageJobs rx userId q store limit (i + 1) =
      ((applySort q.sort (find rx (buildQuery userId q) store)).drop (i * limit)).take limit := by
  simp only [pageJobs, getAllJobs, numberOr_some_pos limit 10 hlimit,
    numberOr_some_pos (i + 1) 1 (Nat.succ_pos i), Nat.add_sub_cancel]
  rfl

theorem find_perm (rx : String → String → Bool) (o : QueryObject) {s₁ s₂ : Store}
    (h : s₁.Perm s₂) : (find rx o s₁).Perm (find rx o s₂) :=
  h.filter _

theorem allPages_eq_of_same_sorted (rx : String → String → Bool) (userId : UserId)
    (q : Query) (store : Store) (view : Nat → Store) (limit : Nat) (hlimit : 0 < limit)
    (hview : ∀ p, (view p).Perm store)
    (hsame : ∀ p, applySort q.sort (find rx (buildQuery userId q) (view p)) =
      applySort q.sort (find rx (buildQuery userId q) store)) :
    allPages rx userId q view limit =
      applySort q.sort (find rx (buildQuery userId q) store) := by
  have hfun : (fun i => pageJobs rx userId q (view (i + 1)) limit (i + 1)) =
      (fun i => ((applySort q.sort (find rx (buildQuery userId q) store)).drop
        (i * limit)).take limit) := by
    funext i
    rw [pageJobs_eq rx userId q (view (i + 1)) limit hlimit i, hsame]
  unfold allPages
  rw [hfun, join_pages_eq_take]
  apply List.take_of_length_le
  have hlen : (applySort q.sort (find rx (buildQuery userId q) store)).length =
      countDocuments rx (buildQuery userId q) (view 1) := by
    rw [(applySort_perm _ _).length_eq, ← (find_perm rx _ (hview 1)).length_eq]
    rfl
  rw [hlen]
  simp only [getAllJobs, numberOr_some_pos limit 10 hlimit]
  exact le_ceilDiv_mul _ _ hlimit

theorem applySort_eq_of_distinct_createdAt (sort : Option String) (l₁ l₂ : List Job)
    (hs : sort = some "latest" ∨ sort = some "oldest") (hp : l₁.Perm l₂)
    (hd : ∀ a ∈ l₁, ∀ b ∈ l₁, a.createdAt = b.createdAt → a = b) :
    applySort sort l₁ = applySort sort l₂ := by
  rcases hs with hs | hs
  · rw [hs, applySort_latest, applySort_latest]
    refine sorted_perm_unique _ _
      (((List.perm_insertionSort _ _).trans hp).trans (List.perm_insertionSort _ _).symm)
      (sorted_byCreatedAtDesc l₁) (sorted_byCreatedAtDesc l₂) ?_
    intro a ha b hb hab hba
    exact hd a ((List.perm_insertionSort _ _).subset ha) b
      ((List.perm_insertionSort _ _).subset hb) (Date.le_antisymm hba hab)
  · rw [hs, applySort_oldest, applySort_oldest]
    refine sorted_perm_unique _ _
      (((List.perm_insertionSort _ _).trans hp).trans (List.perm_insertionSort _ _).symm)
      (sorted_byCreatedAt l₁) (sorted_byCreatedAt l₂) ?_
    intro a ha b hb hab hba
    exact hd a ((List.perm_insertionSort _ _).subset ha) b
      ((List.perm_insertionSort _ _).subset hb) (Date.le_antisymm hab hba)

theorem applySort_eq_of_distinct_position (sort : Option String) (l₁ l₂ : List Job)
    (hs : sort = some "a-z" ∨ sort = some "z-a") (hp : l₁.Perm l₂)
    (hd : ∀ a ∈ l₁, ∀ b ∈ l₁, a.position = b.position → a = b) :
    applySort sort l₁ = applySort sort l₂ := by
  rcases hs with hs | hs
  · rw [hs, applySort_az, applySort_az]
    refine sorted_perm_unique _ _
      (((List.perm_insertionSort _ _).trans hp).trans (List.perm_insertionSort _ _).symm)
      (sorted_byPosition l₁) (sorted_byPosition l₂) ?_
    intro a ha b hb (hab : a.position ≤ b.position) (hba : b.position ≤ a.position)
    exact hd a ((List.perm_insertionSort _ _).subset ha) b
      ((List.perm_insertionSort _ _).subset hb) (le_antisymm hab hba)
  · rw [hs, applySort_za, applySort_za]
    refine sorted_perm_unique _ _
      (((List.perm_insertionSort _ _).trans hp).trans (List.perm_insertionSort _ _).symm)
      (sorted_byPositionDesc l₁) (sorted_byPositionDesc l₂) ?_
    intro a ha b hb (hab : b.position ≤ a.position) (hba : a.position ≤ b.position)
    exact hd a ((List.perm_insertionSort _ _).subset ha) b
      ((List.perm_insertionSort _ _).subset hb) (le_antisymm hba hab)

/-- C3 (amended). Each page is fetched by its own query, in which the store may
hold the collection in another order (`view p`, a rearrangement of `store`).
If the store holds the same order for every page, or the matching records have
pairwise different keys for the chosen sort (`createdAt` for `latest` and
`oldest`, `position` for `a-z` and `z-a`), then for a positive page size the
pages `1..numOfPages` concatenated are the sorted candidate list: `totalJobs`
records, a rearrangement of the stored records that satisfy the query object
(none missing, none repeated), ordered by the sort key. -/
theorem getAllJobs_pagination_exhaustive (rx : String → String → Bool) (userId : UserId)
    (q : Query) (store : Store) (view : Nat → Store) (limit : Nat) (hlimit : 0 < limit)
    (hview : ∀ p, (view p).Perm store)
    (hties : (∀ p, view p = store)
      ∨ ((q.sort = some "latest" ∨ q.sort = some "oldest")
          ∧ ∀ a ∈ find rx (buildQuery userId q) store,
              ∀ b ∈ find rx (buildQuery userId q) store, a.createdAt = b.createdAt → a = b)
      ∨ ((q.sort = some "a-z" ∨ q.sort = some "z-a")
          ∧ ∀ a ∈ find rx (buildQuery userId q) store,
              ∀ b ∈ find rx (buildQuery userId q) store, a.position = b.position → a = b)) :
    allPages rx userId q view limit = applySort q.sort (find rx (buildQuery userId q) store)
    ∧ (allPages rx userId q view limit).length =
        (getAllJobs rx userId { q with page := some 1, limit := some limit } (view 1)).totalJobs
    ∧ (allPages rx userId q view limit).Perm
        (store.filter (matchesQuery rx (buildQuery userId q)))
    ∧ (store.Nodup → (allPages rx userId q view limit).Nodup)
    ∧ (q.sort = some "latest" → (allPages rx userId q view limit).Sorted byCreatedAtDesc)
    ∧ (q.sort = some "oldest" → (allPages rx userId q view limit).Sorted byCreatedAt)
    ∧ (q.sort = some "a-z" → (allPages rx userId q view limit).Sorted byPosition)
    ∧ (q.sort = some "z-a" → (allPages rx userId q view limit).Sorted byPositionDesc) := by
  have hsame : ∀ p, applySort q.sort (find rx (buildQuery userId q) (view p)) =
      applySort q.sort (find rx (buildQuery userId q) store) := by
    intro p
    rcases hties with h | ⟨hs, hd⟩ | ⟨hs, hd⟩
    · rw [h p]
    · exact (applySort_eq_of_distinct_createdAt q.sort _ _ hs
        (find_perm rx _ (hview p)).symm hd).symm
    · exact (applySort_eq_of_distinct_position q.sort _ _ hs
        (find_perm rx _ (hview p)).symm hd).symm
  rw [allPages_eq_of_same_sorted rx userId q store view limit hlimit hview hsame]
  have hperm : (applySort q.sort (find rx (buildQuery userId q) store)).Perm
      (store.filter (matchesQuery rx (buildQuery userId q))) := applySort_perm _ _
  refine ⟨rfl, ?_, hperm, ?_, ?_, ?_, ?_, ?_⟩
  · rw [hperm.length_eq]
    exact (find_perm rx _ (hview 1)).length_eq.symm
  · intro hnd
    exact hperm.nodup_iff.mpr (hnd.filter _)
  · intro hs
    rw [hs, applySort_latest]
    exact sorted_byCreatedAtDesc _
  · intro hs
    rw [hs, applySort_oldest]
    exact sorted_byCreatedAt _
  · intro hs
    rw [hs, applySort_az]
    exact sorted_byPosition _
  · intro hs
    rw [hs, applySort_za]
    exact sorted_byPositionDesc _

theorem swapView_perm (p : Nat) : (swapView p).Perm [sampleJob, sampleJob2] := by
  unfold swapView
  split_ifs
  · exact List.Perm.refl _
  · exact List.Perm.swap _ _ _

theorem tieView_perm (p : Nat) : (tieView p).Perm [sampleJob, sampleTwin] := by
  unfold tieView
  split_ifs
  · exact List.Perm.refl _
  · exact List.Perm.swap _ _ _

/-- Witness for C3 (amended): two records with different `createdAt`, held in
one order when page 1 is fetched and in the other order afterwards, listed
`latest` first with page size 1, come back as two pages, the February record
before the January one. -/
theorem getAllJobs_pagination_exhaustive_witness :
    allPages (fun _ _ => true) 1 (sortQuery "latest") swapView 1 = [sampleJob2, sampleJob]
    ∧ (allPages (fun _ _ => true) 1 (sortQuery "latest") swapView 1).Perm
        ([sampleJob, sampleJob2].filter
          (matchesQuery (fun _ _ => true) (buildQuery 1 (sortQuery "latest")))) :=
  ⟨by decide,
    (getAllJobs_pagination_exhaustive (fun _ _ => true) 1 (sortQuery "latest")
      [sampleJob, sampleJob2] swapView 1 (by decide) swapView_perm
      (Or.inr (Or.inl ⟨Or.inl rfl, by decide⟩))).2.2.1⟩

/-- C3 (counterexample). `sampleJob` and `sampleTwin` have the same `createdAt`.
Listed `latest` first with page size 1, with the store holding them in one order
when page 1 is fetched and in the other order when page 2 is fetched, both
pages return `sampleJob`: it appears twice and the matching `sampleTwin` is
missing. -/
theorem pagination_ties_repeat_and_skip :
    (∀ p, (tieView p).Perm [sampleJob, sampleTwin])
    ∧ (getAllJobs (fun _ _ => true) 1
        { sortQuery "latest" with page := some 1, limit := some 1 } (tieView 1)).numOfPages = 2
    ∧ pageJobs (fun _ _ => true) 1 (sortQuery "latest") (tieView 1) 1 1 = [sampleJob]
    ∧ pageJobs (fun _ _ => true) 1 (sortQuery "latest") (tieView 2) 1 2 = [sampleJob]
    ∧ allPages (fun _ _ => true) 1 (sortQuery "latest") tieView 1 = [sampleJob, sampleJob]
    ∧ sampleTwin ∈ [sampleJob, sampleTwin].filter
        (matchesQuery (fun _ _ => true) (buildQuery 1 (sortQuery "latest")))
    ∧ sampleTwin ∉ allPages (fun _ _ => true) 1 (sortQuery "latest") tieView 1 :=
  ⟨tieView_perm, by decide, by decide, by decide, by decide, by decide, by decide⟩

/-! ## updateJob: the emptiness check -/

/-- C8. When the body sets `company` or `position` to the empty string,
`updateJob` raises BadRequest and leaves the collection as it was, whatever the
job id, the caller and the validators; when it sets neither to the empty string
no BadRequest is raised. -/
theorem updateJob_badRequest (validate : JobPatch → Bool) (userId : UserId) (jobId : JobId)
    (body : JobPatch) (store : Store) :
    ((body.company = some "" ∨ body.position = some "") →
      updateJob validate userId jobId body store =
        (.error (.badRequest "Company or Position fields cannot be empty"), store))
    ∧ (¬ (body.company = some "" ∨ body.position = some "") →
      ∀ msg, (updateJob validate userId jobId body store).1 ≠ .error (.badRequest msg)) := by
  constructor
  · intro h
    unfold updateJob
    rw [if_pos h]
  · intro h msg
    unfold updateJob
    rw [if_neg h]
    unfold findByIdAndUpdate
    split_ifs
    · simp only []
      split <;> simp_all
    · simp

/-! ## Single-job operations on another user's job -/

/-- C2 (evaluation at the failing input). User 2 addresses job 7, which user 1
owns: `getJob` answers NotFound, whereas `updateJob` patches the stored record
and returns it, and `deleteJob` removes it. -/
theorem foreign_job_update_delete :
    getJob 2 7 [sampleJob] = .error (.notFound "No job with id 7")
    ∧ updateJob (fun _ => true) 2 7 samplePatch [sampleJob] =
        (.ok { sampleJob with company := "Other" }, [{ sampleJob with company := "Other" }])
    ∧ deleteJob 2 7 [sampleJob] = (.ok (), []) := by
  refine ⟨?_, ?_, ?_⟩ <;> rfl

/-! ## The month label -/

theorem daysInMonth_of_lt (year month : Nat) (h : month < 12) :
    daysInMonth year month =
      if month = 1 then (if isLeapYear year then 29 else 28) else 31 - ((month % 7) % 2) := by
  unfold daysInMonth
  simp only [Nat.mod_eq_of_lt h, Nat.sub_self, Nat.zero_div, Nat.add_zero]

theorem makeDay_of_le (year month day : Nat) (hm : month < 12)
    (hd : day ≤ daysInMonth year month) :
    makeDay year month day = { year := year, month := month, date := day } := by
  unfold makeDay
  simp only [Nat.div_eq_of_lt hm, Nat.mod_eq_of_lt hm, Nat.add_zero]
  rw [if_pos hd]

theorem setMonth_eq (now : Moment) (m : Nat) (hm : m < 12) :
    now.setMonth m =
      { year := now.year, month := m, date := min now.date (daysInMonth now.year m) } := by
  unfold Moment.setMonth
  exact makeDay_of_le _ _ _ hm (Nat.min_le_right _ _)

theorem setMonth_setYear_fields (now : Moment) (year m : Nat)
    (hm : m < 12) :
    ((now.setMonth m).setYear year).year = year
      ∧ ((now.setMonth m).setYear year).month = m := by
  rw [setMonth_eq now m hm]
  unfold Moment.setYear
  simp only []
  split_ifs with hc
  · rw [makeDay_of_le _ _ _ hm (le_refl _)]
    exact ⟨rfl, rfl⟩
  · have hle : min now.date (daysInMonth now.year m) ≤ daysInMonth year m := by
      have hd : min now.date (daysInMonth now.year m) ≤ daysInMonth now.year m :=
        Nat.min_le_right _ _
      generalize min now.date (daysInMonth now.year m) = d at hc hd
      rw [daysInMonth_of_lt _ _ hm] at hd ⊢
      by_cases h1 : m = 1
      · subst h1
        simp only [if_true] at hd ⊢
        by_cases hl : isLeapYear now.year = true
        · simp only [hl, if_true, Bool.true_and, beq_self_eq_true, beq_iff_eq] at hc hd
          split_ifs <;> omega
        · simp only [hl, Bool.false_eq_true, if_false] at hd
          split_ifs <;> omega
      · simp only [if_neg h1] at hd ⊢
        exact hd
    rw [makeDay_of_le _ _ _ hm hle]
    exact ⟨rfl, rfl⟩

theorem calendarAbbrev_eq (month : Nat) (h1 : 1 ≤ month) (h12 : month ≤ 12) :
    monthsShort.getD (month - 1) "" = calendarAbbrev month := by
  interval_cases month <;> rfl

theorem toString_length_four (y : Nat) (h1 : 1000 ≤ y) (h2 : y ≤ 9999) :
    (toString y).length = 4 := by
  obtain ⟨f, rfl⟩ : ∃ f, y = f + 3 := ⟨y - 3, by omega⟩
  have a : (f + 3) / 10 ≠ 0 := by omega
  have b : (f + 3) / 10 / 10 ≠ 0 := by omega
  have c : (f + 3) / 10 / 10 / 10 ≠ 0 := by omega
  have d : (f + 3) / 10 / 10 / 10 / 10 = 0 := by omega
  show (Nat.repr (f + 3)).length = 4
  simp [Nat.repr, Nat.toDigits, Nat.toDigitsCore, a, b, c, d]

theorem formatY_four_digits (y : Nat) (h1 : 1000 ≤ y) (h2 : y ≤ 9999) :
    formatY y = toString y := by
  unfold formatY zeroFill
  rw [if_pos h2]
  simp only [toString_length_four y h1 h2, Nat.sub_self, List.replicate_zero]
  rfl

/-- C9. Whatever the current date `now` is, the label of the group
`(year, month)` with `month` in 1..12 is the abbreviated name of calendar month
`month`, a space, and the year as the `Y` token prints it, which for a
four-digit year is its decimal numeral; the date underlying the label has the
requested year and zero-indexed month `month - 1`. -/
theorem dateLabel_is_month_and_year (now : Moment) (year month : Nat)
    (h1 : 1 ≤ month) (h12 : month ≤ 12) :
    dateLabel now year month = calendarAbbrev month ++ " " ++ formatY year
    ∧ (1000 ≤ year → year ≤ 9999 →
        dateLabel now year month = calendarAbbrev month ++ " " ++ toString year)
    ∧ ((now.setMonth (month - 1)).setYear year).year = year
    ∧ ((now.setMonth (month - 1)).setYear year).month + 1 = month := by
  have hm : month - 1 < 12 := by omega
  obtain ⟨hy, hmo⟩ := setMonth_setYear_fields now year (month - 1) hm
  have hlabel : dateLabel now year month = calendarAbbrev month ++ " " ++ formatY year := by
    unfold dateLabel Moment.formatMMMY
    rw [hy, hmo, calendarAbbrev_eq month h1 h12]
  refine ⟨hlabel, ?_, hy, ?_⟩
  · intro ha hb
    rw [hlabel, formatY_four_digits year ha hb]
  · rw [hmo]
    omega

/-- Witness for C9: on 31 January 2024 the group (2023, 2) is labelled
`Feb 2023`. -/
theorem dateLabel_is_month_and_year_witness :
    dateLabel { year := 2024, month := 0, date := 31 } 2023 2 = "Feb 2023" :=
  ((dateLabel_is_month_and_year { year := 2024, month := 0, date := 31 } 2023 2
    (by decide) (by decide)).2.1 (by decide) (by decide)).trans (by decide)

/-! ## The status histogram -/

theorem foldl_cons_eq_reverse {α : Type} (l acc : List (α × Nat)) :
    l.foldl (fun acc curr => (curr.1, curr.2) :: acc) acc = l.reverse ++ acc := by
  induction l generalizing acc with
  | nil => rfl
  | cons a l ih =>
    rw [List.foldl_cons, ih]
    simp

theorem lookup_map_pair {κ : Type} [DecidableEq κ] (f : κ → Nat) (k : κ) (l : List κ) :
    (l.map (fun x => (x, f x))).lookup k = if k ∈ l then some (f k) else none := by
  induction l with
  | nil => rfl
  | cons a l ih =>
    rw [List.map_cons, List.lookup_cons]
    by_cases h : k = a
    · subst h
      simp
    · have hb : (k == a) = false := by simpa using h
      rw [hb]
      simp only [ih, List.mem_cons, h, false_or]

theorem propOrZero_reduceStats_groupCount (keys : List String) (k : String) :
    propOrZero (reduceStats (groupCount keys)) k = keys.count k := by
  unfold propOrZero reduceStats groupCount
  rw [foldl_cons_eq_reverse, List.append_nil, ← List.map_reverse, lookup_map_pair]
  by_cases h : k ∈ keys
  · have : k ∈ keys.dedup.reverse := by simpa using h
    rw [if_pos this]
    rfl
  · have : ¬ k ∈ keys.dedup.reverse := by simpa using h
    rw [if_neg this, List.count_eq_zero_of_not_mem h]
    rfl

theorem count_status_partition (l : List String) :
    l.count "pending" + l.count "interview" + l.count "declined"
      + l.countP (fun s => s != "pending" && s != "interview" && s != "declined")
      = l.length := by
  induction l with
  | nil => rfl
  | cons a l ih =>
    simp only [List.count_cons, List.countP_cons, List.length_cons]
    by_cases h1 : a = "pending"
    · subst h1
      simp
      omega
    · by_cases h2 : a = "interview"
      · subst h2
        simp
        omega
      · by_cases h3 : a = "declined"
        · subst h3
          simp
          omega
        · simp [h1, h2, h3]
          omega

theorem count_map_ownedBy {κ : Type} [DecidableEq κ] (f : Job → κ) (userId : UserId)
    (store : Store) (k : κ) :
    ((ownedBy userId store).map f).count k =
      store.countP (fun j => j.createdBy == userId && f j == k) := by
  unfold ownedBy
  induction store with
  | nil => rfl
  | cons a l ih =>
    rw [List.filter_cons, List.countP_cons]
    by_cases h : a.createdBy = userId
    · have hb : (a.createdBy == userId) = true := by simpa using h
      rw [if_pos hb, List.map_cons, List.count_cons, ih, hb, Bool.true_and]
    · have hb : (a.createdBy == userId) = false := by simpa using h
      simp only [hb, Bool.false_and, Bool.false_eq_true, if_false, ih, Nat.add_zero]

theorem countP_others_ownedBy (userId : UserId) (store : Store) :
    ((ownedBy userId store).map (fun j => j.status)).countP
        (fun s => s != "pending" && s != "interview" && s != "declined") =
      store.countP (fun j => j.createdBy == userId &&
        (j.status != "pending" && j.status != "interview" && j.status != "declined")) := by
  unfold ownedBy
  induction store with
  | nil => rfl
  | cons a l ih =>
    rw [List.filter_cons, List.countP_cons]
    by_cases h : a.createdBy = userId
    · have hb : (a.createdBy == userId) = true := by simpa using h
      rw [if_pos hb, List.map_cons, List.countP_cons, ih, hb, Bool.true_and]
    · have hb : (a.createdBy == userId) = false := by simpa using h
      simp only [hb, Bool.false_and, Bool.false_eq_true, if_false, ih, Nat.add_zero]

theorem length_ownedBy (userId : UserId) (store : Store) :
    ((ownedBy userId store).map (fun j => j.status)).length =
      store.countP (fun j => j.createdBy == userId) := by
  rw [List.length_map, ownedBy, List.countP_eq_length_filter]

/-- C6. `defaultStats` has the three fields `pending`, `interview` and
`declined`, each the number of the owner's records with that status (so `0` when
there is none); together with the owner's records of any other status they add
up to the number of the owner's records. -/
theorem showStats_defaultStats_counts (now : Moment) (userId : UserId) (store : Store) :
    (showStats now userId store).defaultStats.pending =
        store.countP (fun j => j.createdBy == userId && j.status == "pending")
    ∧ (showStats now userId store).defaultStats.interview =
        store.countP (fun j => j.createdBy == userId && j.status == "interview")
    ∧ (showStats now userId store).defaultStats.declined =
        store.countP (fun j => j.createdBy == userId && j.status == "declined")
    ∧ (showStats now userId store).defaultStats.pending
        + (showStats now userId store).defaultStats.interview
        + (showStats now userId store).defaultStats.declined
        + store.countP (fun j => j.createdBy == userId &&
            (j.status != "pending" && j.status != "interview" && j.status != "declined"))
        = store.countP (fun j => j.createdBy == userId) := by
  have hp : (showStats now userId store).defaultStats.pending =
      store.countP (fun j => j.createdBy == userId && j.status == "pending") := by
    show propOrZero _ _ = _
    rw [propOrZero_reduceStats_groupCount, count_map_ownedBy]
  have hi : (showStats now userId store).defaultStats.interview =
      store.countP (fun j => j.createdBy == userId && j.status == "interview") := by
    show propOrZero _ _ = _
    rw [propOrZero_reduceStats_groupCount, count_map_ownedBy]
  have hd : (showStats now userId store).defaultStats.declined =
      store.countP (fun j => j.createdBy == userId && j.status == "declined") := by
    show propOrZero _ _ = _
    rw [propOrZero_reduceStats_groupCount, count_map_ownedBy]
  refine ⟨hp, hi, hd, ?_⟩
  rw [hp, hi, hd, ← count_map_ownedBy (fun j => j.status), ← count_map_ownedBy (fun j => j.status),
    ← count_map_ownedBy (fun j => j.status), ← countP_others_ownedBy, ← length_ownedBy,
    List.length_map]
  have := count_status_partition ((ownedBy userId store).map (fun j => j.status))
  rw [List.length_map] at this
  exact this

/-! ## The monthly series -/

theorem recentFirst_total (a b : MonthKey × Nat) : recentFirst a b ∨ recentFirst b a := by
  unfold recentFirst
  omega

theorem recentFirst_trans (a b c : MonthKey × Nat) (h1 : recentFirst a b)
    (h2 : recentFirst b c) : recentFirst a c := by
  unfold recentFirst at *
  omega

theorem before_of_recentFirst {a b : MonthKey × Nat} (h : recentFirst a b) (hne : a.1 ≠ b.1) :
    b.1.before a.1 := by
  unfold recentFirst at h
  unfold MonthKey.before
  have hk : ¬ (a.1.year = b.1.year ∧ a.1.month = b.1.month) := by
    rintro ⟨hy, hm⟩
    apply hne
    cases ha : a.1
    cases hb : b.1
    rw [ha] at hy hm
    rw [hb] at hy hm
    simp only at hy hm
    rw [hy, hm]
  omega

theorem mem_groupCount {κ : Type} [DecidableEq κ] (keys : List κ) (x : κ × Nat) :
    x ∈ groupCount keys ↔ x.1 ∈ keys ∧ x.2 = keys.count x.1 := by
  unfold groupCount
  rw [List.mem_map]
  constructor
  · rintro ⟨k, hk, rfl⟩
    exact ⟨List.mem_dedup.mp hk, rfl⟩
  · rintro ⟨h1, h2⟩
    refine ⟨x.1, List.mem_dedup.mpr h1, ?_⟩
    rw [← h2]

theorem groupCount_keys_nodup {κ : Type} [DecidableEq κ] (keys : List κ) :
    ((groupCount keys).map Prod.fst).Nodup := by
  unfold groupCount
  rw [List.map_map]
  have : (Prod.fst ∘ fun k => (k, List.count k keys)) = id := rfl
  rw [this, List.map_id]
  exact List.nodup_dedup keys

theorem sortedGroups_strict (keys : List MonthKey) :
    ((groupCount keys).insertionSort recentFirst).Pairwise (fun a b => b.1.before a.1) := by
  have hs : ((groupCount keys).insertionSort recentFirst).Pairwise recentFirst :=
    sorted_insertionSort_of recentFirst recentFirst_total recentFirst_trans _
  have hn : (((groupCount keys).insertionSort recentFirst).map Prod.fst).Nodup :=
    ((List.perm_insertionSort recentFirst _).map Prod.fst).nodup_iff.mpr
      (groupCount_keys_nodup keys)
  have hn2 : ((groupCount keys).insertionSort recentFirst).Pairwise
      (fun a b => a.1 ≠ b.1) := List.pairwise_map.mp hn
  exact (hs.and hn2).imp (fun h => before_of_recentFirst h.1 h.2)

theorem length_le_one_of_nodup_of_all_eq {α : Type} (l : List α) (hn : l.Nodup)
    (h : ∀ a ∈ l, ∀ b ∈ l, a = b) : l.length ≤ 1 := by
  match l, hn, h with
  | [], _, _ => simp
  | [_], _, _ => simp
  | a :: b :: t, hn, h =>
    exfalso
    have hab : a = b := h a (by simp) b (by simp)
    rw [hab] at hn
    simp at hn

theorem before_irrefl (k : MonthKey) : ¬ k.before k := by
  unfold MonthKey.before
  omega

theorem monthlyGroups_spec (userId : UserId) (store : Store) :
    (∀ x ∈ monthlyGroups userId store,
        x.2 = store.countP (fun j => j.createdBy == userId && monthOf j == x.1)
        ∧ ∃ j ∈ store, j.createdBy = userId ∧ monthOf j = x.1)
    ∧ (monthlyGroups userId store).Pairwise (fun a b => b.1.before a.1)
    ∧ (monthlyGroups userId store).length ≤ 6
    ∧ (∀ j ∈ store, j.createdBy = userId →
        monthOf j ∈ (monthlyGroups userId store).map Prod.fst
        ∨ ((monthlyGroups userId store).length = 6
            ∧ ∀ x ∈ monthlyGroups userId store, (monthOf j).before x.1)) := by
  unfold monthlyGroups
  simp only []
  set keys := (ownedBy userId store).map monthOf with hkeys
  set S := (groupCount keys).insertionSort recentFirst with hS
  have hperm : S.Perm (groupCount keys) := List.perm_insertionSort recentFirst _
  have hstrict : S.Pairwise (fun a b => b.1.before a.1) := sortedGroups_strict keys
  have hmemkeys : ∀ k, k ∈ keys ↔ ∃ j ∈ store, j.createdBy = userId ∧ monthOf j = k := by
    intro k
    rw [hkeys, List.mem_map]
    constructor
    · rintro ⟨j, hj, rfl⟩
      rw [ownedBy, List.mem_filter] at hj
      exact ⟨j, hj.1, by simpa using hj.2, rfl⟩
    · rintro ⟨j, hj, ho, rfl⟩
      refine ⟨j, ?_, rfl⟩
      rw [ownedBy, List.mem_filter]
      exact ⟨hj, by simpa using ho⟩
  refine ⟨?_, ?_, ?_, ?_⟩
  · intro x hx
    have hx2 : x ∈ groupCount keys := hperm.subset (List.mem_of_mem_take hx)
    rw [mem_groupCount] at hx2
    refine ⟨?_, (hmemkeys x.1).mp hx2.1⟩
    rw [hx2.2, hkeys, count_map_ownedBy]
  · exact hstrict.sublist (List.take_sublist 6 S)
  · exact List.length_take_le 6 S
  · intro j hj ho
    have hk : monthOf j ∈ keys := (hmemkeys _).mpr ⟨j, hj, ho, rfl⟩
    have hin : (monthOf j, keys.count (monthOf j)) ∈ S :=
      hperm.mem_iff.mpr ((mem_groupCount keys _).mpr ⟨hk, rfl⟩)
    rw [← List.take_append_drop 6 S, List.mem_append] at hin
    rcases hin with hin | hin
    · left
      exact List.mem_map.mpr ⟨_, hin, rfl⟩
    · right
      have hlen : 6 < S.length := by
        by_contra hcon
        rw [List.drop_of_length_le (by omega)] at hin
        simp at hin
      refine ⟨by rw [List.length_take]; omega, ?_⟩
      intro x hx
      have hsplit := hstrict
      rw [← List.take_append_drop 6 S, List.pairwise_append] at hsplit
      exact hsplit.2.2 x hx _ hin

/-- C5. `monthlyApplications` lists, oldest first, the most recent distinct
months (at most six) in which the owner has records: it is the image of a
strictly chronologically ascending list of months, each labelled and paired
with the number of the owner's records of that month; every month of the owner
that is not listed is older than all six listed ones; the length is 1 when all
the owner's records share one month and the sequence is empty when the owner
has no record. -/
theorem showStats_monthlyApplications (now : Moment) (userId : UserId) (store : Store) :
    ∃ months : List MonthKey,
      (showStats now userId store).monthlyApplications =
          months.map (fun k =>
            { date := dateLabel now k.year k.month
              count := store.countP (fun j => j.createdBy == userId && monthOf j == k) })
      ∧ months.Pairwise MonthKey.before
      ∧ months.length ≤ 6
      ∧ (∀ k ∈ months, ∃ j ∈ store, j.createdBy = userId ∧ monthOf j = k)
      ∧ (∀ j ∈ store, j.createdBy = userId →
          monthOf j ∈ months ∨ (months.length = 6 ∧ ∀ k ∈ months, (monthOf j).before k))
      ∧ ((∃ j ∈ store, j.createdBy = userId) →
          (∀ j ∈ store, ∀ j2 ∈ store, j.createdBy = userId → j2.createdBy = userId →
            monthOf j = monthOf j2) →
          (showStats now userId store).monthlyApplications.length = 1)
      ∧ ((∀ j ∈ store, j.createdBy ≠ userId) →
          (showStats now userId store).monthlyApplications = []) := by
  obtain ⟨hitems, hstrict, hlen, hrecent⟩ := monthlyGroups_spec userId store
  have hout : (showStats now userId store).monthlyApplications =
      ((monthlyGroups userId store).map Prod.fst).reverse.map (fun k =>
        ({ date := dateLabel now k.year k.month
           count := store.countP (fun j => j.createdBy == userId && monthOf j == k) } :
          MonthlyApplication)) := by
    show ((monthlyGroups userId store).map _).reverse = _
    rw [← List.map_reverse, ← List.map_reverse, List.map_map]
    apply List.map_congr_left
    intro x hx
    have := (hitems x (List.mem_reverse.mp hx)).1
    simp only [Function.comp, this]
  have hpw : ((monthlyGroups userId store).map Prod.fst).reverse.Pairwise MonthKey.before := by
    rw [List.pairwise_reverse, List.pairwise_map]
    exact hstrict
  have hmem : ∀ k ∈ ((monthlyGroups userId store).map Prod.fst).reverse,
      ∃ j ∈ store, j.createdBy = userId ∧ monthOf j = k := by
    intro k hk
    rw [List.mem_reverse, List.mem_map] at hk
    obtain ⟨x, hx, rfl⟩ := hk
    exact (hitems x hx).2
  have hrec : ∀ j ∈ store, j.createdBy = userId →
      monthOf j ∈ ((monthlyGroups userId store).map Prod.fst).reverse
      ∨ (((monthlyGroups userId store).map Prod.fst).reverse.length = 6
        ∧ ∀ k ∈ ((monthlyGroups userId store).map Prod.fst).reverse, (monthOf j).before k) := by
    intro j hj ho
    rcases hrecent j hj ho with h | ⟨h6, hall⟩
    · left
      exact List.mem_reverse.mpr h
    · right
      refine ⟨by rw [List.length_reverse, List.length_map]; exact h6, ?_⟩
      intro k hk
      rw [List.mem_reverse, List.mem_map] at hk
      obtain ⟨x, hx, rfl⟩ := hk
      exact hall x hx
  refine ⟨((monthlyGroups userId store).map Prod.fst).reverse, hout, hpw,
    by rw [List.length_reverse, List.length_map]; exact hlen, hmem, hrec, ?_, ?_⟩
  · rintro ⟨j0, hj0, ho0⟩ hsame
    rw [hout, List.length_map]
    have hnodup : ((monthlyGroups userId store).map Prod.fst).reverse.Nodup :=
      List.Pairwise.imp (R := MonthKey.before) (S := fun a b => a ≠ b)
        (fun {a b} hab heq => before_irrefl b (by rw [heq] at hab; exact hab)) hpw
    have halleq : ∀ a ∈ ((monthlyGroups userId store).map Prod.fst).reverse,
        ∀ b ∈ ((monthlyGroups userId store).map Prod.fst).reverse, a = b := by
      intro a ha b hb
      obtain ⟨ja, hja, hoa, rfl⟩ := hmem a ha
      obtain ⟨jb, hjb, hob, rfl⟩ := hmem b hb
      exact hsame ja hja jb hjb hoa hob
    have hle := length_le_one_of_nodup_of_all_eq _ hnodup halleq
    rcases hrec j0 hj0 ho0 with h | ⟨h6, _⟩
    · have : 0 < ((monthlyGroups userId store).map Prod.fst).reverse.length :=
        List.length_pos_of_mem h
      omega
    · omega
  · intro hnone
    rw [hout]
    have : ((monthlyGroups userId store).map Prod.fst).reverse = [] := by
      apply List.eq_nil_iff_forall_not_mem.mpr
      intro k hk
      obtain ⟨j, hj, ho, _⟩ := hmem k hk
      exact hnone j hj ho
    rw [this]
    rfl

/-! ## Search by position -/

theorem parseAtom_of_not_meta {c : Char} (h : isMeta c = false) :
    parseAtom c = some (Atom.lit c) := by
  unfold parseAtom
  have hdot : c ≠ '.' := by
    rintro rfl
    exact absurd h (by decide)
  rw [if_neg hdot, h]
  rfl

theorem quantOf_of_not_meta {c : Char} (h : isMeta c = false) : quantOf c = none := by
  unfold quantOf
  have h1 : c ≠ '*' := by
    rintro rfl
    exact absurd h (by decide)
  have h2 : c ≠ '+' := by
    rintro rfl
    exact absurd h (by decide)
  have h3 : c ≠ '?' := by
    rintro rfl
    exact absurd h (by decide)
  rw [if_neg h1, if_neg h2, if_neg h3]

theorem parsePieces_literal :
    ∀ (p : List Char), (∀ c ∈ p, isMeta c = false) →
      parsePieces p = some (p.map (fun c => { atom := Atom.lit c, quant := Quant.one }))
  | [], _ => rfl
  | [c], h => by
    simp only [parsePieces, parseAtom_of_not_meta (h c (by simp)), Option.map_some',
      List.map_cons, List.map_nil]
  | c :: d :: rest, h => by
    have ih := parsePieces_literal (d :: rest) (fun x hx => h x (List.mem_cons_of_mem _ hx))
    simp only [parsePieces, parseAtom_of_not_meta (h c (by simp)),
      quantOf_of_not_meta (h d (by simp)), ih, Option.map_some', List.map_cons]

theorem matchHere_literal (fold : Char → Char) (p : List Char) :
    ∀ s : List Char,
      matchHere fold (p.map (fun c => { atom := Atom.lit c, quant := Quant.one })) s = true ↔
        (p.map fold) <+: (s.map fold) := by
  induction p with
  | nil =>
    intro s
    simp [matchHere]
  | cons c p ih =>
    intro s
    cases s with
    | nil => simp [matchHere]
    | cons x s2 =>
      simp only [List.map_cons, matchHere, atomMatches, Bool.and_eq_true, beq_iff_eq, ih s2,
        List.cons_prefix_cons]

theorem searchFrom_literal (fold : Char → Char) (p : List Char) (s : List Char) :
    searchFrom fold (p.map (fun c => { atom := Atom.lit c, quant := Quant.one })) s = true ↔
      (p.map fold) <:+: (s.map fold) := by
  induction s with
  | nil =>
    simp only [searchFrom, matchHere_literal, List.map_nil, List.prefix_nil, List.infix_nil]
  | cons x s2 ih =>
    simp only [searchFrom, Bool.or_eq_true, matchHere_literal, ih, List.map_cons,
      List.infix_cons_iff]

theorem regexFragment_literal (fold : Char → Char) (pattern subject : String)
    (h : ∀ c ∈ pattern.data, isMeta c = false) :
    regexFragment fold pattern subject = some (decide (containsCI fold pattern subject)) := by
  unfold regexFragment containsCI
  rw [parsePieces_literal pattern.data h, Option.map_some']
  congr 1
  rw [Bool.eq_iff_iff, decide_eq_true_iff]
  exact searchFrom_literal fold pattern.data subject.data

theorem buildQuery_position (userId : UserId) (q : Query) :
    (buildQuery userId q).position = (if truthy q.search then q.search else none)
    ∧ buildQuery userId { q with search := none } =
        { buildQuery userId q with position := none } := by
  unfold buildQuery
  simp only [truthy]
  constructor <;> split_ifs <;> rfl

theorem matchesQuery_split (rx : String → String → Bool) (o : QueryObject) (j : Job) :
    matchesQuery rx o j =
      ((match o.position with
        | none => true
        | some p => rx p j.position)
        && matchesQuery rx { o with position := none } j) := by
  unfold matchesQuery
  simp only []
  generalize (j.createdBy == o.createdBy) = a
  generalize (match o.position with
    | none => true
    | some p => rx p j.position) = b
  generalize (match o.jobType with
    | none => true
    | some t => j.jobType == t) = c
  generalize (match o.status with
    | none => true
    | some s => j.status == s) = d
  cases a <;> cases b <;> cases c <;> cases d <;> rfl

theorem matchesQuery_search_literal (fold : Char → Char) (rx : String → String → Bool)
    (hrx : Agrees fold rx) (userId : UserId) (q : Query) (s : String)
    (hs : q.search = some s) (hne : s ≠ "") (hmeta : ∀ c ∈ s.data, isMeta c = false)
    (j : Job) :
    matchesQuery rx (buildQuery userId q) j =
      (decide (containsCI fold s j.position)
        && matchesQuery rx (buildQuery userId { q with search := none }) j) := by
  have htr : truthy q.search = true := by
    rw [hs]
    simpa [truthy] using hne
  rw [matchesQuery_split, (buildQuery_position userId q).2, (buildQuery_position userId q).1,
    if_pos htr, hs]
  simp only []
  congr 1
  exact hrx s j.position _ (regexFragment_literal fold s j.position hmeta)

/-- C7 (amended). Let the store's regular-expression test `rx` answer as the
fragment prescribes, with case folding `fold`.  A non-empty search string
without special characters restricts the candidates to exactly the records that
pass the rest of the query (owner, jobType, status) and whose position contains
the search string as a literal substring up to that case folding, and `jobs`
and `totalJobs` are taken from those; when `search` is absent or empty the
query object has no condition on position. -/
theorem getAllJobs_search_plain_text (fold : Char → Char) (rx : String → String → Bool)
    (hrx : Agrees fold rx) (userId : UserId) (q : Query) (store : Store) :
    (∀ s, q.search = some s → s ≠ "" → (∀ c ∈ s.data, isMeta c = false) →
      (find rx (buildQuery userId q) store =
          (find rx (buildQuery userId { q with search := none }) store).filter
            (fun j => decide (containsCI fold s j.position))
        ∧ (getAllJobs rx userId q store).totalJobs =
          ((find rx (buildQuery userId { q with search := none }) store).filter
            (fun j => decide (containsCI fold s j.position))).length
        ∧ ∀ j ∈ (getAllJobs rx userId q store).jobs,
            j.createdBy = userId ∧ containsCI fold s j.position))
    ∧ ((q.search = none ∨ q.search = some "") →
      (buildQuery userId q).position = none
        ∧ getAllJobs rx userId q store =
          getAllJobs rx userId { q with search := none } store) := by
  constructor
  · intro s hs hne hmeta
    have hfind : find rx (buildQuery userId q) store =
        (find rx (buildQuery userId { q with search := none }) store).filter
          (fun j => decide (containsCI fold s j.position)) := by
      unfold find
      rw [List.filter_filter]
      apply List.filter_congr
      intro j _
      exact matchesQuery_search_literal fold rx hrx userId q s hs hne hmeta j
    refine ⟨hfind, ?_, ?_⟩
    · rw [← hfind]
      rfl
    · intro j hj
      have h1 : j ∈ applySort q.sort (find rx (buildQuery userId q) store) :=
        List.mem_of_mem_drop (List.mem_of_mem_take hj)
      have h2 : j ∈ find rx (buildQuery userId q) store :=
        (applySort_perm _ _).subset h1
      refine ⟨by rw [find_owner h2, buildQuery_createdBy], ?_⟩
      rw [hfind, List.mem_filter] at h2
      exact of_decide_eq_true h2.2
  · intro h
    have hpos : buildQuery userId q = buildQuery userId { q with search := none } := by
      rcases h with h | h <;> simp [buildQuery, truthy, h]
    refine ⟨?_, ?_⟩
    · rw [hpos, (buildQuery_position userId q).2]
    · unfold getAllJobs
      simp only [hpos]

theorem sampleEngine_agrees (fold : Char → Char) : Agrees fold (sampleEngine fold) := by
  intro pattern subject b h
  unfold sampleEngine
  rw [h]
  rfl

/-- Witness for C7 (amended): with ASCII case folding the search string `ENG`
finds the position `Engineer`. -/
theorem getAllJobs_search_plain_text_witness :
    (getAllJobs (sampleEngine Char.toLower) 1 (searchQuery "ENG") [sampleJob]).jobs = [sampleJob]
      ∧ ∀ j ∈ (getAllJobs (sampleEngine Char.toLower) 1 (searchQuery "ENG") [sampleJob]).jobs,
          j.createdBy = 1 ∧ containsCI Char.toLower "ENG" j.position :=
  ⟨by decide,
    ((getAllJobs_search_plain_text Char.toLower (sampleEngine Char.toLower)
      (sampleEngine_agrees Char.toLower) 1 (searchQuery "ENG") [sampleJob]).1 "ENG" rfl
      (by decide) (by decide)).2.2⟩

theorem getAllJobs_single (rx : String → String → Bool) (userId : UserId) (q : Query)
    (j : Job) (hm : matchesQuery rx (buildQuery userId q) j = true) (hp : q.page = none)
    (hl : q.limit = none) : (getAllJobs rx userId q [j]).jobs = [j] := by
  have hfind : find rx (buildQuery userId q) [j] = [j] := by
    simp [find, hm]
  have hsort : applySort q.sort [j] = [j] := List.perm_singleton.mp (applySort_perm _ _)
  simp only [getAllJobs, hfind, hsort, hp, hl, numberOr]
  rfl

theorem search_selects_sampleJob (fold : Char → Char) (rx : String → String → Bool)
    (hrx : Agrees fold rx) (p : String)
    (hf : regexFragment fold p sampleJob.position = some true) :
    (getAllJobs rx 1 (searchQuery p) [sampleJob]).jobs = [sampleJob] := by
  apply getAllJobs_single _ _ _ _ _ rfl rfl
  have hrxp : rx p sampleJob.position = true := hrx p sampleJob.position true hf
  rw [matchesQuery_buildQuery_iff]
  refine ⟨rfl, ?_, ?_, ?_⟩
  · intro s hs _
    have hsp : p = s := Option.some.inj hs
    rw [← hsp]
    exact hrxp
  · intro t ht
    exact absurd ht (by simp [searchQuery])
  · intro t ht
    exact absurd ht (by simp [searchQuery])

theorem not_containsCI_of_fresh (fold : Char → Char) (needle hay : String) (m : Char)
    (hm : m ∈ needle.data) (hfresh : ∀ c ∈ hay.data, fold c ≠ fold m) :
    ¬ containsCI fold needle hay := by
  intro h
  have h1 : fold m ∈ hay.data.map fold := h.subset (List.mem_map_of_mem fold hm)
  obtain ⟨c, hc, hcm⟩ := List.mem_map.mp h1
  exact hfresh c hc hcm

/-- C7 (counterexample). For every store engine that answers as the fragment
prescribes, each of the search strings `.`, `x*`, `n+` and `x?` selects the
position `Engineer`; yet `Engineer` contains none of them as a literal
substring, under any case folding that does not identify the special character
with a character of `Engineer`. -/
theorem search_special_characters_not_literal :
    (∀ (fold : Char → Char) (rx : String → String → Bool), Agrees fold rx →
      (getAllJobs rx 1 (searchQuery ".") [sampleJob]).jobs = [sampleJob]
      ∧ (getAllJobs rx 1 (searchQuery "x*") [sampleJob]).jobs = [sampleJob]
      ∧ (getAllJobs rx 1 (searchQuery "n+") [sampleJob]).jobs = [sampleJob]
      ∧ (getAllJobs rx 1 (searchQuery "x?") [sampleJob]).jobs = [sampleJob])
    ∧ (∀ fold : Char → Char,
      ((∀ c ∈ sampleJob.position.data, fold c ≠ fold '.') →
          ¬ containsCI fold "." sampleJob.position)
      ∧ ((∀ c ∈ sampleJob.position.data, fold c ≠ fold '*') →
          ¬ containsCI fold "x*" sampleJob.position)
      ∧ ((∀ c ∈ sampleJob.position.data, fold c ≠ fold '+') →
          ¬ containsCI fold "n+" sampleJob.position)
      ∧ ((∀ c ∈ sampleJob.position.data, fold c ≠ fold '?') →
          ¬ containsCI fold "x?" sampleJob.position)) := by
  constructor
  · intro fold rx hrx
    refine ⟨?_, ?_, ?_, ?_⟩
    · exact search_selects_sampleJob fold rx hrx "." rfl
    · exact search_selects_sampleJob fold rx hrx "x*" rfl
    · apply search_selects_sampleJob fold rx hrx "n+"
      have hp : parsePieces ("n+" : String).data =
          some [{ atom := Atom.lit 'n', quant := Quant.plus }] := by decide
      have hd : sampleJob.position.data = ['E', 'n', 'g', 'i', 'n', 'e', 'e', 'r'] := by
        decide
      simp [regexFragment, hp, hd, searchFrom, matchHere, starLoop, atomMatches]
    · exact search_selects_sampleJob fold rx hrx "x?" rfl
  · intro fold
    exact ⟨not_containsCI_of_fresh fold _ _ '.' (by decide),
      not_containsCI_of_fresh fold _ _ '*' (by decide),
      not_containsCI_of_fresh fold _ _ '+' (by decide),
      not_containsCI_of_fresh fold _ _ '?' (by decide)⟩

/-! ## Further properties -/

/-- The job `getJob` returns is stored, has the requested id and belongs to the
caller; when no stored job has both, `getJob` raises NotFound naming the id. -/
theorem getJob_owned (userId : UserId) (jobId : JobId) (store : Store) :
    (∀ job, getJob userId jobId store = .ok job →
      job ∈ store ∧ job.id = jobId ∧ job.createdBy = userId)
    ∧ ((∀ j ∈ store, j.id = jobId → j.createdBy ≠ userId) →
      getJob userId jobId store = .error (.notFound (noJobWithId jobId))) := by
  constructor
  · intro job h
    unfold getJob findOne at h
    split at h
    · cases h
    · rename_i job2 hfind
      cases h
      have hmem := List.mem_of_find?_eq_some hfind
      have hp := List.find?_some hfind
      simp only [Bool.and_eq_true, beq_iff_eq] at hp
      exact ⟨hmem, hp.1, hp.2⟩
  · intro h
    unfold getJob findOne
    have hnone : List.find? (fun j => j.id == jobId && j.createdBy == userId) store = none := by
      rw [List.find?_eq_none]
      intro j hj
      simp only [Bool.and_eq_true, beq_iff_eq, not_and]
      exact h j hj
    rw [hnone]

/-- A sort value other than the four recognised ones leaves the natural
order. -/
theorem applySort_unrecognised (sort : Option String) (l : List Job)
    (h1 : sort ≠ some "latest") (h2 : sort ≠ some "oldest") (h3 : sort ≠ some "a-z")
    (h4 : sort ≠ some "z-a") : applySort sort l = l := by
  unfold applySort
  simp only [if_neg h1, if_neg h2, if_neg h3, if_neg h4]

/-- Witness for `applySort_unrecognised`. -/
theorem applySort_unrecognised_witness :
    applySort (some "newest") [sampleJob, sampleJob2] = [sampleJob, sampleJob2] :=
  applySort_unrecognised (some "newest") [sampleJob, sampleJob2] (by decide) (by decide)
    (by decide) (by decide)

/-- The statistics of user 1 over `sampleYear`, computed on 31 December 2024:
the six most recent of seven months, oldest first, and the status counts. -/
theorem showStats_sampleYear :
    showStats { year := 2024, month := 11, date := 31 } 1 sampleYear =
      { defaultStats := { pending := 9, interview := 0, declined := 0 }
        monthlyApplications :=
          [{ date := "Jan 2024", count := 1 }, { date := "Mar 2024", count := 2 },
           { date := "Jul 2024", count := 1 }, { date := "Aug 2024", count := 2 },
           { date := "Sep 2024", count := 1 }, { date := "Oct 2024", count := 1 }] } := by
  decide

end Jobster
